import Mathlib

/-!
Verification of the long-input chunking and re-summarization pipeline of the
ai-summarizer service (src/app.py, src/config.py).

The service code is shallowly embedded below.  The opaque third-party
capabilities (the tokenizer and the summarization model) are abstracted as
function parameters, exactly as the specification treats them: the tokenizer
is a function from text to a token count, and the summarizer is a function
from a fully enumerated call record (text, bounds, sampling configuration)
to either a produced summary or a raised Python exception (an IndexError or
any other exception carrying a message).  The HTTP handler body of
summarize (src/app.py lines 88-178) is embedded as a pure function from a
request to an outcome record that captures the response status, the JSON
body fields, the persisted documents and the ordered trace of summarizer
calls that were made.
-/

/-- Python exceptions, as far as the except clauses of the handler
distinguish them: an IndexError, or any other exception with its message. -/
inductive PyErr where
  | indexError (msg : String)
  | other (msg : String)
deriving DecidableEq, Repr

/-- The response message produced by the two except clauses of the handler
(src/app.py lines 169-175): an IndexError is reported with the fixed
message, every other exception with str of the exception. -/
def pyErrResponseMsg : PyErr → String
  | PyErr.indexError _ => "Index error during summarization."
  | PyErr.other m => m

/-- Helper for splitting on whitespace: accumulates the current word in
reverse in acc; a whitespace character flushes the accumulated word.
This implements the Python text.split() word extraction. -/
def splitWsAux : List Char → List Char → List String
  | [], [] => []
  | [], acc => [String.mk acc.reverse]
  | c :: cs, acc =>
    if c.isWhitespace then
      match acc with
      | [] => splitWsAux cs []
      | _ => String.mk acc.reverse :: splitWsAux cs []
    else
      splitWsAux cs (c :: acc)

/-- Python text.split() with no argument: split on runs of whitespace,
with no empty words and no leading or trailing empties. -/
def pySplit (s : String) : List String :=
  splitWsAux s.data []

/-- Python " ".join(words): words joined by single spaces. -/
def joinWords : List String → String
  | [] => ""
  | [w] => w
  | w :: ws => w ++ " " ++ joinWords ws

/-- Python range(0, stop, step) for a positive step: the multiples of step
below stop, in order.  (The service only ever reaches this with
step = max_words - overlap > 0; Python would raise ValueError on step 0,
which is outside every claim and is here rendered as the empty range.) -/
def pyRange (stop step : Nat) : List Nat :=
  if step = 0 then [] else (List.range ((stop + step - 1) / step)).map (· * step)

/-- The word windows of chunk_text (src/app.py lines 65-68): for each start
index i produced by range(0, len(words), max_words - overlap), the slice
words[i : i + max_words]. -/
def chunk_windows (words : List String) (max_words overlap : Nat) : List (List String) :=
  (pyRange words.length (max_words - overlap)).map fun i => (words.drop i).take max_words

/-- chunk_text (src/app.py lines 65-68): split text into words, then for
each window start yield " ".join(words[i : i + max_words]). -/
def chunk_text (text : String) (max_words : Nat := 700) (overlap : Nat := 100) : List String :=
  (chunk_windows (pySplit text) max_words overlap).map joinWords

/-- One call to the opaque summarization capability, with every keyword
argument the service ever passes (src/app.py lines 73-82, 123, 129-138).
Arguments the Python call site omits are recorded as none.  The float
hyperparameters (temperature, top_p) are never computed with by the service,
only passed through verbatim, so they are embedded as exact rationals. -/
structure SummCall where
  text : String
  max_length : Nat
  min_length : Nat
  num_beams : Option Nat
  do_sample : Bool
  temperature : Option ℚ
  top_k : Option Nat
  top_p : Option ℚ
deriving DecidableEq, Repr

/-- The per-chunk summarizer call of the first pass (src/app.py line 123):
summarizer(chunk, max_length=preset_max, min_length=preset_min,
do_sample=False), with no beam count or sampling hyperparameters. -/
def perChunkCall (chunk : String) (preset_max preset_min : Nat) : SummCall :=
  { text := chunk, max_length := preset_max, min_length := preset_min,
    num_beams := none, do_sample := false,
    temperature := none, top_k := none, top_p := none }

/-- The direct, non-chunked summarizer call (src/app.py lines 129-138). -/
def directCall (text : String) (preset_max preset_min : Nat) (mode : String) : SummCall :=
  { text := text, max_length := preset_max, min_length := preset_min,
    num_beams := some 5, do_sample := mode == "creative",
    temperature := some 1.2, top_k := some 50, top_p := some 0.9 }

/-- The recombination summarizer call issued by summarize_combined_chunks
(src/app.py lines 71-82): the chunk summaries joined by single spaces,
beam count 5, sampling exactly when mode is the string creative. -/
def recombCall (chunks : List String) (preset_max preset_min : Nat) (mode : String) : SummCall :=
  { text := joinWords chunks, max_length := preset_max, min_length := preset_min,
    num_beams := some 5, do_sample := mode == "creative",
    temperature := some 1.2, top_k := some 100, top_p := some 0.95 }

/-- summarize_combined_chunks (src/app.py lines 71-83), returning the result
of the single summarizer call it makes together with its call trace. -/
def summarize_combined_chunks (S : SummCall → Except PyErr String)
    (chunks : List String) (preset_max preset_min : Nat) (mode : String) :
    Except PyErr String × List SummCall :=
  let call := recombCall chunks preset_max preset_min mode
  (S call, [call])

/-- The per-chunk list comprehension of the chunked path (src/app.py line
123): the chunks are summarized left to right; the first raised exception
aborts the comprehension and propagates.  Returns the collected partial
summaries (or the propagated exception) and the trace of calls made. -/
def runChunks (S : SummCall → Except PyErr String) (preset_max preset_min : Nat) :
    List String → Except PyErr (List String) × List SummCall
  | [] => (Except.ok [], [])
  | c :: cs =>
    let call := perChunkCall c preset_max preset_min
    match S call with
    | Except.error e => (Except.error e, [call])
    | Except.ok s =>
      match runChunks S preset_max preset_min cs with
      | (Except.ok rest, tr) => (Except.ok (s :: rest), call :: tr)
      | (Except.error e, tr) => (Except.error e, call :: tr)

/-- Python title.endswith(".") for the one-character suffix the handler
uses: the last character of the string is a period. -/
def endsWithDot (s : String) : Bool :=
  match s.data.getLast? with
  | some c => c == '.'
  | none => false

/-- The title derivation of the handler (src/app.py lines 141-145): join the
first 12 words of the summary; fall back to the literal when empty; then
append three dots whenever the current title does not end with a period.
Note that the fallback branch and the dot-appending branch are two separate
if statements in the source, so the fallback also receives the dots. -/
def mkTitle (summary : String) : String :=
  let title := joinWords ((pySplit summary).take 12)
  let title := if title = "" then "Untitled Summary" else title
  if endsWithDot title then title else title ++ "..."

/-- The length preset dictionary lookup (src/app.py lines 107-111),
returning (preset_min, preset_max); the dictionary get default is
(50, 100). -/
def lengthPreset (length : String) : Nat × Nat :=
  if length = "short" then (15, 30)
  else if length = "medium" then (50, 100)
  else if length = "long" then (100, 180)
  else (50, 100)

/-- MAX_TOKENS (src/app.py line 62). -/
def MAX_TOKENS : Nat := 1024

/-- The JSON body of a summarize request: the three fields the handler
reads, each possibly absent (src/app.py lines 89-92). -/
structure Request where
  text : Option String
  length : Option String
  mode : Option String
deriving DecidableEq, Repr

/-- A persisted SummaryRecord document (src/app.py lines 49-55, 148-155).
The wall-clock createdAt field is outside the embedding. -/
structure SummaryRecord where
  text : String
  summary : String
  title : String
  success : Bool
  error : String
deriving DecidableEq, Repr

/-- The observable outcome of one request to the summarize route: HTTP
status, the JSON body fields that the various return sites set (absent
fields are none), the list of documents persisted while handling the
request, and the ordered trace of summarizer calls made. -/
structure HandlerOutcome where
  status : Nat
  ok : Option Bool
  error : Option String
  title : Option String
  summary : Option String
  original_length : Option Nat
  summary_length : Option Nat
  token_count : Option Nat
  persisted : List SummaryRecord
  calls : List SummCall
deriving DecidableEq, Repr

/-- Outcome of an except clause (src/app.py lines 169-175): status 500,
a body with only the error message, nothing persisted. -/
def errorOutcome (e : PyErr) (calls : List SummCall) : HandlerOutcome :=
  { status := 500, ok := none, error := some (pyErrResponseMsg e),
    title := none, summary := none, original_length := none,
    summary_length := none, token_count := none, persisted := [], calls := calls }

/-- Outcome of the success path (src/app.py lines 140-167): derive the
title, persist one record with success true and the default empty error
field, and return the 200 body. -/
def successOutcome (text summary : String) (input_tokens : Nat) (calls : List SummCall) :
    HandlerOutcome :=
  let title := mkTitle summary
  { status := 200, ok := none, error := none, title := some title,
    summary := some summary,
    original_length := some (pySplit text).length,
    summary_length := some (pySplit summary).length,
    token_count := some input_tokens,
    persisted := [{ text := text, summary := summary, title := title,
                    success := true, error := "" }],
    calls := calls }

/-- The summarize route handler (src/app.py lines 88-178), parameterized by
the tokenizer capability tok (len(tokenizer.encode(text, truncation=False)))
and the summarization capability S.  Missing JSON fields take the dict get
defaults; empty text short-circuits to the 400 validation response; then
the token count decides between the direct path and the
chunk/summarize/recombine path; exceptions from the capability become the
500 outcomes. -/
def summarize (tok : String → Nat) (S : SummCall → Except PyErr String)
    (req : Request) : HandlerOutcome :=
  let text := req.text.getD ""
  let length := req.length.getD "medium"
  let mode := req.mode.getD "reliable"
  if text = "" then
    { status := 400, ok := some false, error := some "Input text is required.",
      title := none, summary := none, original_length := none,
      summary_length := none, token_count := none, persisted := [], calls := [] }
  else
    let pm := lengthPreset length
    let preset_min := pm.1
    let preset_max := pm.2
    let input_tokens := tok text
    if MAX_TOKENS < input_tokens then
      let chunks := chunk_text text 700 100
      match runChunks S preset_max preset_min chunks with
      | (Except.error e, tr) => errorOutcome e tr
      | (Except.ok partials, tr) =>
        match summarize_combined_chunks S partials preset_max preset_min mode with
        | (Except.error e, tr2) => errorOutcome e (tr ++ tr2)
        | (Except.ok summary, tr2) => successOutcome text summary input_tokens (tr ++ tr2)
    else
      let call := directCall text preset_max preset_min mode
      match S call with
      | Except.error e => errorOutcome e [call]
      | Except.ok summary => successOutcome text summary input_tokens [call]

/-- The (preset_min, preset_max) pair the handler computes for a request:
the length field with the dict get default "medium" fed to the preset
table (src/app.py lines 91, 107-111). -/
def presetOf (req : Request) : Nat × Nat :=
  lengthPreset (req.length.getD "medium")

/-- The mode string the handler uses for a request: the mode field with the
dict get default "reliable" (src/app.py line 92). -/
def modeOf (req : Request) : String :=
  req.mode.getD "reliable"

/-! Lemmas about the whitespace splitter and the single-space join. -/

/-- Every word produced by the splitter, starting from a whitespace-free
accumulator, is nonempty and whitespace-free. -/
theorem splitWsAux_words (cs : List Char) :
    ∀ acc : List Char, (∀ c ∈ acc, c.isWhitespace = false) →
    ∀ w ∈ splitWsAux cs acc, w.data ≠ [] ∧ ∀ c ∈ w.data, c.isWhitespace = false := by
  induction cs with
  | nil =>
    intro acc hacc w hw
    cases acc with
    | nil => simp [splitWsAux] at hw
    | cons a as =>
      simp only [splitWsAux, List.mem_singleton] at hw
      subst hw
      refine ⟨by simp, ?_⟩
      intro c hc
      simp only [List.mem_reverse] at hc
      exact hacc c hc
  | cons c cs ih =>
    intro acc hacc w hw
    by_cases h : c.isWhitespace
    · cases acc with
      | nil =>
        simp only [splitWsAux, h, if_true] at hw
        exact ih [] (by simp) w hw
      | cons a as =>
        simp only [splitWsAux, h, if_true, List.mem_cons] at hw
        rcases hw with hw | hw
        · subst hw
          refine ⟨by simp, ?_⟩
          intro x hx
          simp only [List.mem_reverse] at hx
          exact hacc x hx
        · exact ih [] (by simp) w hw
    · simp only [splitWsAux, h, if_false] at hw
      refine ih (c :: acc) ?_ w hw
      intro x hx
      rcases List.mem_cons.mp hx with hx | hx
      · subst hx; exact Bool.eq_false_iff.mpr h
      · exact hacc x hx

/-- Every word of pySplit is nonempty and whitespace-free. -/
theorem pySplit_words (s : String) :
    ∀ w ∈ pySplit s, w.data ≠ [] ∧ ∀ c ∈ w.data, c.isWhitespace = false :=
  splitWsAux_words s.data [] (by simp)

/-- Feeding a whitespace-free run to the splitter just accumulates it. -/
theorem splitWsAux_append (xs : List Char) :
    ∀ (cs acc : List Char), (∀ c ∈ xs, c.isWhitespace = false) →
    splitWsAux (xs ++ cs) acc = splitWsAux cs (xs.reverse ++ acc) := by
  induction xs with
  | nil => intro cs acc _; simp
  | cons x xs ih =>
    intro cs acc hxs
    have hx : x.isWhitespace = false := hxs x (by simp)
    have step : splitWsAux (x :: (xs ++ cs)) acc = splitWsAux (xs ++ cs) (x :: acc) := by
      simp [splitWsAux, hx]
    rw [List.cons_append, step, ih cs (x :: acc) (fun c hc => hxs c (List.mem_cons_of_mem _ hc))]
    simp

/-- A space flushes a nonempty accumulator as one word. -/
theorem splitWsAux_space (cs : List Char) (a : Char) (acc : List Char) :
    splitWsAux (' ' :: cs) (a :: acc) =
      String.mk (a :: acc).reverse :: splitWsAux cs [] := by
  simp [splitWsAux]

/-- Splitting undoes joining, for nonempty whitespace-free words: this is
the precise sense in which the chunk strings and the derived title have
exactly the word lists they were built from. -/
theorem pySplit_joinWords (ws : List String)
    (h : ∀ w ∈ ws, w.data ≠ [] ∧ ∀ c ∈ w.data, c.isWhitespace = false) :
    pySplit (joinWords ws) = ws := by
  induction ws with
  | nil => rfl
  | cons w ws ih =>
    obtain ⟨hw1, hw2⟩ := h w (by simp)
    cases ws with
    | nil =>
      show splitWsAux (joinWords [w]).data [] = [w]
      have hjw : (joinWords [w]).data = w.data ++ [] := by simp [joinWords]
      rw [hjw, splitWsAux_append w.data [] [] hw2, List.append_nil]
      cases hrv : w.data.reverse with
      | nil => exact absurd (List.reverse_eq_nil_iff.mp hrv) hw1
      | cons b bs =>
        show [String.mk (b :: bs).reverse] = [w]
        rw [← hrv, List.reverse_reverse]
    | cons w' ws' =>
      show splitWsAux (joinWords (w :: w' :: ws')).data [] = w :: w' :: ws'
      have hjw : (joinWords (w :: w' :: ws')).data =
          w.data ++ (' ' :: (joinWords (w' :: ws')).data) := by
        show ((w ++ " ") ++ joinWords (w' :: ws')).data = _
        show (w.data ++ [' ']) ++ (joinWords (w' :: ws')).data = _
        simp
      rw [hjw, splitWsAux_append w.data _ [] hw2, List.append_nil]
      cases hrv : w.data.reverse with
      | nil => exact absurd (List.reverse_eq_nil_iff.mp hrv) hw1
      | cons b bs =>
        rw [splitWsAux_space]
        have hmk : String.mk (b :: bs).reverse = w := by
          rw [← hrv, List.reverse_reverse]
        rw [hmk,
          show splitWsAux (joinWords (w' :: ws')).data [] = w' :: ws' from
            ih (fun x hx => h x (List.mem_cons_of_mem _ hx))]

/-! Lemmas about pyRange and the chunk windows. -/

/-- Length of the Python range: the ceiling of stop / step. -/
theorem pyRange_length (stop step : Nat) (hstep : step ≠ 0) :
    (pyRange stop step).length = (stop + step - 1) / step := by
  simp [pyRange, hstep]

/-- Index k is inside the range exactly when its start k * step is below
stop. -/
theorem lt_pyRange_length {stop step k : Nat} (hstep : 0 < step) :
    k < (pyRange stop step).length ↔ k * step < stop := by
  rw [pyRange_length stop step (Nat.pos_iff_ne_zero.mp hstep), Nat.lt_iff_add_one_le,
    Nat.le_div_iff_mul_le hstep, add_one_mul]
  omega

/-- Element k of the Python range. -/
theorem pyRange_getElem? {stop step : Nat} (hstep : 0 < step) (k : Nat) :
    (pyRange stop step)[k]? = if k * step < stop then some (k * step) else none := by
  by_cases h : k * step < stop
  · have hk : k < (pyRange stop step).length := (lt_pyRange_length hstep).mpr h
    rw [if_pos h]
    unfold pyRange at hk ⊢
    rw [if_neg (Nat.pos_iff_ne_zero.mp hstep)] at hk ⊢
    rw [List.getElem?_map]
    rw [List.length_map, List.length_range] at hk
    rw [List.getElem?_range hk]
    rfl
  · rw [if_neg h]
    have hk : ¬ k < (pyRange stop step).length := fun hk =>
      h ((lt_pyRange_length hstep).mp hk)
    exact List.getElem?_eq_none (Nat.le_of_not_lt hk)

/-- Element k of the chunk windows: the word slice starting at
k * (max_words - overlap), when that start is inside the word list. -/
theorem chunk_windows_getElem? (words : List String) {mw ov : Nat} (hov : ov < mw) (k : Nat) :
    (chunk_windows words mw ov)[k]? =
      if k * (mw - ov) < words.length then
        some ((words.drop (k * (mw - ov))).take mw)
      else none := by
  have hstep : 0 < mw - ov := Nat.sub_pos_of_lt hov
  unfold chunk_windows
  rw [List.getElem?_map, pyRange_getElem? hstep]
  by_cases h : k * (mw - ov) < words.length
  · rw [if_pos h, if_pos h]; rfl
  · rw [if_neg h, if_neg h]; rfl

/-- Every position of the word list is covered by some window. -/
theorem chunk_windows_cover {words : List String} {mw ov : Nat} (hov : ov < mw)
    {j : Nat} {x : String} (hj : words[j]? = some x) :
    ∃ w ∈ chunk_windows words mw ov, x ∈ w := by
  have hstep : 0 < mw - ov := Nat.sub_pos_of_lt hov
  have hjlen : j < words.length := by
    by_contra hc
    rw [List.getElem?_eq_none (Nat.le_of_not_lt hc)] at hj
    exact Option.noConfusion hj
  have hij : j / (mw - ov) * (mw - ov) ≤ j := Nat.div_mul_le_self j (mw - ov)
  have h1 : j < j / (mw - ov) * (mw - ov) + (mw - ov) := by
    calc j = (mw - ov) * (j / (mw - ov)) + j % (mw - ov) :=
          (Nat.div_add_mod j (mw - ov)).symm
      _ < (mw - ov) * (j / (mw - ov)) + (mw - ov) :=
          Nat.add_lt_add_left (Nat.mod_lt j hstep) _
      _ = j / (mw - ov) * (mw - ov) + (mw - ov) := by rw [Nat.mul_comm]
  have hjlt : j < j / (mw - ov) * (mw - ov) + mw :=
    Nat.lt_of_lt_of_le h1 (Nat.add_le_add_left (Nat.sub_le mw ov) _)
  have hilen : j / (mw - ov) * (mw - ov) < words.length := Nat.lt_of_le_of_lt hij hjlen
  refine ⟨(words.drop (j / (mw - ov) * (mw - ov))).take mw, ?_, ?_⟩
  · have hg := chunk_windows_getElem? words hov (j / (mw - ov))
    rw [if_pos hilen] at hg
    exact List.getElem?_mem hg
  · have hgot : ((words.drop (j / (mw - ov) * (mw - ov))).take mw)[j -
        j / (mw - ov) * (mw - ov)]? = some x := by
      rw [List.getElem?_take_of_lt (Nat.sub_lt_left_of_lt_add hij hjlt),
        List.getElem?_drop, Nat.add_sub_cancel' hij, hj]
    exact List.getElem?_mem hgot

/-- Every start index in the Python range is below stop. -/
theorem mem_pyRange {stop step i : Nat} (h : i ∈ pyRange stop step) : i < stop := by
  unfold pyRange at h
  by_cases hs : step = 0
  · simp [hs] at h
  · rw [if_neg hs] at h
    obtain ⟨k, hk, rfl⟩ := List.mem_map.mp h
    rw [List.mem_range] at hk
    refine (lt_pyRange_length (Nat.pos_of_ne_zero hs)).mp ?_
    rwa [pyRange_length _ _ hs]

/-- Every window is nonempty and draws its words from the original list. -/
theorem chunk_windows_words {words : List String} {mw ov : Nat} {w : List String}
    (hov : ov < mw) (hw : w ∈ chunk_windows words mw ov) :
    w ≠ [] ∧ ∀ x ∈ w, x ∈ words := by
  obtain ⟨i, hi, rfl⟩ := List.mem_map.mp hw
  have hilen : i < words.length := mem_pyRange hi
  constructor
  · have hpos : 0 < ((words.drop i).take mw).length := by
      rw [List.length_take, List.length_drop]
      exact lt_min (Nat.lt_of_le_of_lt (Nat.zero_le ov) hov) (Nat.sub_pos_of_lt hilen)
    exact List.length_pos.mp hpos
  · intro x hx
    exact List.mem_of_mem_drop (List.mem_of_mem_take hx)

/-- Every window has at most max_words words. -/
theorem chunk_windows_le {words : List String} {mw ov : Nat} {w : List String}
    (hw : w ∈ chunk_windows words mw ov) : w.length ≤ mw := by
  obtain ⟨i, _, rfl⟩ := List.mem_map.mp hw
  rw [List.length_take]
  exact Nat.min_le_left mw _

/-- Overlap arithmetic on raw slices: when the slice at i is full, its last
overlap words are exactly the first overlap words of the slice starting one
step later. -/
theorem slice_share (words : List String) (i mw ov : Nat) (hov : ov < mw)
    (hfull : i + mw ≤ words.length) :
    ((words.drop i).take mw).drop (mw - ov) =
      ((words.drop (i + (mw - ov))).take mw).take ov ∧
    ov ≤ ((words.drop (i + (mw - ov))).take mw).length := by
  constructor
  · rw [List.drop_take, List.drop_drop, Nat.sub_sub_self (Nat.le_of_lt hov),
      List.take_take, min_eq_left (Nat.le_of_lt hov)]
  · rw [List.length_take, List.length_drop]
    have hmw : ov ≤ mw := Nat.le_of_lt hov
    omega

/-- Consecutive windows whose first member is full share exactly overlap
words: the last overlap words of the first window are the first overlap
words of the second, and the second has at least overlap words. -/
theorem chunk_windows_share {words : List String} {mw ov k : Nat} {w₁ w₂ : List String}
    (hov : ov < mw)
    (h1 : (chunk_windows words mw ov)[k]? = some w₁)
    (h2 : (chunk_windows words mw ov)[k + 1]? = some w₂)
    (hfull : w₁.length = mw) :
    w₁.drop (mw - ov) = w₂.take ov ∧ ov ≤ w₂.length := by
  have hg1 := chunk_windows_getElem? words hov k
  have hg2 := chunk_windows_getElem? words hov (k + 1)
  rw [h1] at hg1
  rw [h2] at hg2
  by_cases hc1 : k * (mw - ov) < words.length
  case neg => rw [if_neg hc1] at hg1; exact Option.noConfusion hg1
  by_cases hc2 : (k + 1) * (mw - ov) < words.length
  case neg => rw [if_neg hc2] at hg2; exact Option.noConfusion hg2
  rw [if_pos hc1] at hg1
  rw [if_pos hc2] at hg2
  have hw1 : w₁ = (words.drop (k * (mw - ov))).take mw := Option.some.inj hg1
  have hw2 : w₂ = (words.drop ((k + 1) * (mw - ov))).take mw := Option.some.inj hg2
  have hkk : (k + 1) * (mw - ov) = k * (mw - ov) + (mw - ov) := by rw [add_one_mul]
  rw [hkk] at hw2
  have hflen : k * (mw - ov) + mw ≤ words.length := by
    rw [hw1, List.length_take, List.length_drop] at hfull
    omega
  have hs := slice_share words (k * (mw - ov)) mw ov hov hflen
  rw [hw1, hw2]
  exact hs

/-- Chunks are joined windows, and splitting a chunk recovers its window. -/
theorem chunk_text_getElem? (text : String) {mw ov : Nat} (hov : ov < mw)
    (k : Nat) {c : String} (hk : (chunk_text text mw ov)[k]? = some c) :
    ∃ w, (chunk_windows (pySplit text) mw ov)[k]? = some w ∧
      c = joinWords w ∧ pySplit c = w := by
  unfold chunk_text at hk
  rw [List.getElem?_map] at hk
  cases hw : (chunk_windows (pySplit text) mw ov)[k]? with
  | none => rw [hw] at hk; exact Option.noConfusion hk
  | some w =>
    rw [hw] at hk
    have hc : c = joinWords w := (Option.some.inj hk).symm
    have hmem : w ∈ chunk_windows (pySplit text) mw ov := List.getElem?_mem hw
    obtain ⟨hne, hmemw⟩ := chunk_windows_words hov hmem
    refine ⟨w, rfl, hc, ?_⟩
    rw [hc]
    exact pySplit_joinWords w (fun x hx => pySplit_words text x (hmemw x hx))

/-- The sharing guarantee exactly as the specification words it, as a
decidable check on a chunk list: every consecutive pair of chunks shares
exactly overlap words, meaning the last overlap words of the first chunk
are the first overlap words of the second and both chunks have at least
overlap words; the pair whose second member is the final chunk is exempt,
since the specification allows the final chunk to be shorter. -/
def claimedConsecutiveShare (chunks : List String) (ov : Nat) : Bool :=
  (List.range (chunks.length - 2)).all fun k =>
    let w₁ := pySplit (chunks.getD k "")
    let w₂ := pySplit (chunks.getD (k + 1) "")
    decide (ov ≤ w₁.length) && decide (ov ≤ w₂.length) &&
      decide (w₁.drop (w₁.length - ov) = w₂.take ov)

/-- C2, counterexample: with max_words 4 and overlap 3 on a five-word text
the chunker emits the windows above; the pair of consecutive chunks
"c d e" and "d e" shares only 2 words although neither is the final chunk
"e", so the claimed guarantee that consecutive chunks share exactly overlap
words (final chunk excepted) is false as universally stated. -/
theorem C2_counterexample :
    chunk_text "a b c d e" 4 3 = ["a b c d", "b c d e", "c d e", "d e", "e"] ∧
    claimedConsecutiveShare (chunk_text "a b c d e" 4 3) 3 = false := by decide

/-- C2 (amended): for overlap < max_words, every word of the text appears
in at least one chunk and every chunk has at most max_words words; the
exact-overlap sharing between a consecutive pair of chunks holds whenever
the earlier chunk of the pair is full (has exactly max_words words): its
last overlap words are the first overlap words of the next chunk, which has
at least overlap words.  (Trailing chunks that are already shorter than
max_words can share fewer than overlap words, as the counterexample
shows.) -/
theorem C2_amended_chunker (text : String) (mw ov : Nat) (hov : ov < mw) :
    (∀ (j : Nat) (x : String), (pySplit text)[j]? = some x →
      ∃ c ∈ chunk_text text mw ov, x ∈ pySplit c) ∧
    (∀ c ∈ chunk_text text mw ov, (pySplit c).length ≤ mw) ∧
    (∀ k c₁ c₂, (chunk_text text mw ov)[k]? = some c₁ →
      (chunk_text text mw ov)[k + 1]? = some c₂ →
      (pySplit c₁).length = mw →
      (pySplit c₁).drop (mw - ov) = (pySplit c₂).take ov ∧
        ov ≤ (pySplit c₂).length) := by
  refine ⟨?_, ?_, ?_⟩
  · intro j x hj
    obtain ⟨w, hw, hx⟩ := chunk_windows_cover hov hj
    obtain ⟨hne, hmemw⟩ := chunk_windows_words hov hw
    refine ⟨joinWords w, List.mem_map_of_mem joinWords hw, ?_⟩
    rw [pySplit_joinWords w (fun y hy => pySplit_words text y (hmemw y hy))]
    exact hx
  · intro c hc
    unfold chunk_text at hc
    obtain ⟨w, hw, rfl⟩ := List.mem_map.mp hc
    obtain ⟨hne, hmemw⟩ := chunk_windows_words hov hw
    rw [pySplit_joinWords w (fun x hx => pySplit_words text x (hmemw x hx))]
    exact chunk_windows_le hw
  · intro k c₁ c₂ h1 h2 hfull
    obtain ⟨w₁, hw1, hc1, hps1⟩ := chunk_text_getElem? text hov k h1
    obtain ⟨w₂, hw2, hc2, hps2⟩ := chunk_text_getElem? text hov (k + 1) h2
    rw [hps1] at hfull ⊢
    rw [hps2]
    exact chunk_windows_share hov hw1 hw2 hfull

/-- C8, counterexample: the text has 3 words, fewer than max_words = 4,
yet with overlap 2 the chunker produces two chunks, not one, and because
the chunk is the words rejoined with single spaces the first chunk differs
from the original doubly spaced text. -/
theorem C8_counterexample :
    (pySplit "a  b c").length = 3 ∧ 3 < 4 ∧
    chunk_text "a  b c" 4 2 = ["a b c", "c"] ∧
    chunk_text "a  b c" 4 2 ≠ ["a  b c"] := by decide

/-- C8 (amended): when the text has at least one word and at most
max_words - overlap words, the chunker produces exactly one chunk, equal to
the words of the text rejoined with single spaces (hence equal to the whole
text exactly when the text is already single-spaced with no surrounding
whitespace). -/
theorem C8_amended_single_chunk (text : String) (mw ov : Nat)
    (h1 : 1 ≤ (pySplit text).length) (h2 : (pySplit text).length ≤ mw - ov) :
    chunk_text text mw ov = [joinWords (pySplit text)] := by
  have hstep : 0 < mw - ov := Nat.lt_of_lt_of_le Nat.zero_lt_one (Nat.le_trans h1 h2)
  unfold chunk_text chunk_windows
  have hrange : pyRange (pySplit text).length (mw - ov) = [0] := by
    unfold pyRange
    rw [if_neg (Nat.pos_iff_ne_zero.mp hstep)]
    have hdiv : ((pySplit text).length + (mw - ov) - 1) / (mw - ov) = 1 :=
      Nat.div_eq_of_lt_le (by omega) (by omega)
    rw [hdiv, show List.range 1 = [0] from rfl, List.map_cons, List.map_nil, Nat.zero_mul]
  rw [hrange]
  simp only [List.map_cons, List.map_nil, List.drop_zero]
  rw [List.take_of_length_le (Nat.le_trans h2 (Nat.sub_le mw ov))]

/-- Joining a nonempty tail distributes as one word, a space, the rest. -/
theorem joinWords_cons (w : String) (l : List String) (h : l ≠ []) :
    joinWords (w :: l) = w ++ " " ++ joinWords l := by
  cases l with
  | nil => exact absurd rfl h
  | cons a as => rfl

/-- Appending a whitespace-free string to a joined word list is the same as
joining the word list with the string glued onto its last word; the word
count is unchanged and the words stay nonempty and whitespace-free. -/
theorem joinWords_append (ws : List String) (x : String) (hne : ws ≠ [])
    (hx : ∀ c ∈ x.data, c.isWhitespace = false)
    (hws : ∀ w ∈ ws, w.data ≠ [] ∧ ∀ c ∈ w.data, c.isWhitespace = false) :
    ∃ ws', joinWords ws ++ x = joinWords ws' ∧ ws'.length = ws.length ∧
      ∀ w ∈ ws', w.data ≠ [] ∧ ∀ c ∈ w.data, c.isWhitespace = false := by
  induction ws with
  | nil => exact absurd rfl hne
  | cons w ws ih =>
    cases ws with
    | nil =>
      refine ⟨[w ++ x], rfl, rfl, ?_⟩
      intro w' hw'
      rw [List.mem_singleton] at hw'
      subst hw'
      obtain ⟨hw1, hw2⟩ := hws w (by simp)
      constructor
      · show w.data ++ x.data ≠ []
        simp [hw1]
      · intro c hc
        rcases List.mem_append.mp hc with hc | hc
        · exact hw2 c hc
        · exact hx c hc
    | cons w' ws' =>
      obtain ⟨ws'', hjoin, hlen, hgood⟩ :=
        ih (List.cons_ne_nil w' ws') (fun u hu => hws u (List.mem_cons_of_mem _ hu))
      have hws''ne : ws'' ≠ [] := by
        intro hzero
        rw [hzero] at hlen
        simp at hlen
      refine ⟨w :: ws'', ?_, by simp [hlen], ?_⟩
      · rw [joinWords_cons w (w' :: ws') (List.cons_ne_nil w' ws'),
          joinWords_cons w ws'' hws''ne, String.append_assoc, String.append_assoc, hjoin]
        exact (String.append_assoc w " " (joinWords ws'')).symm
      · intro u hu
        rcases List.mem_cons.mp hu with hu | hu
        · subst hu; exact hws _ (by simp)
        · exact hgood u hu

/-- C4, counterexample: on the empty summary the first-12-words join is
empty, and the handler then appends the dots to the fallback as well (the
endswith check is a separate if statement), so the resulting title is not
the literal string the claim states. -/
theorem C4_counterexample :
    mkTitle "" = "Untitled Summary..." ∧ mkTitle "" ≠ "Untitled Summary" := by decide

/-- C4 (amended): the title extractor takes the first 12 whitespace
separated words of the summary rejoined with single spaces; if that result
is empty the fallback is used and, since the fallback does not end with a
period, the dots are appended to it too, yielding the literal
"Untitled Summary..."; a nonempty result is returned as is when it ends
with a period and otherwise with "..." appended.  The output is always
nonempty and has at most 12 words. -/
theorem C4_amended_title (s : String) :
    mkTitle s ≠ "" ∧ (pySplit (mkTitle s)).length ≤ 12 ∧
    (pySplit s = [] → mkTitle s = "Untitled Summary...") ∧
    (pySplit s ≠ [] →
      (endsWithDot (joinWords ((pySplit s).take 12)) = true →
        mkTitle s = joinWords ((pySplit s).take 12)) ∧
      (endsWithDot (joinWords ((pySplit s).take 12)) = false →
        mkTitle s = joinWords ((pySplit s).take 12) ++ "...")) := by
  by_cases hps : pySplit s = []
  · have hm : mkTitle s = "Untitled Summary..." := by
      simp only [mkTitle, hps]
      decide
    refine ⟨by rw [hm]; decide, by rw [hm]; decide, fun _ => hm, fun hne => absurd hps hne⟩
  · have htk : (pySplit s).take 12 ≠ [] := by
      intro h
      rcases List.take_eq_nil_iff.mp h with h1 | h1
      · exact absurd h1 (by decide)
      · exact hps h1
    have hgood : ∀ w ∈ (pySplit s).take 12,
        w.data ≠ [] ∧ ∀ c ∈ w.data, c.isWhitespace = false :=
      fun w hw => pySplit_words s w (List.mem_of_mem_take hw)
    have hrt : pySplit (joinWords ((pySplit s).take 12)) = (pySplit s).take 12 :=
      pySplit_joinWords _ hgood
    have htne : joinWords ((pySplit s).take 12) ≠ "" := by
      intro h
      rw [h] at hrt
      exact htk (by rw [← hrt]; rfl)
    have hmk : mkTitle s = if endsWithDot (joinWords ((pySplit s).take 12))
        then joinWords ((pySplit s).take 12)
        else joinWords ((pySplit s).take 12) ++ "..." := by
      simp only [mkTitle, if_neg htne]
    by_cases hdot : endsWithDot (joinWords ((pySplit s).take 12)) = true
    · have hm2 : mkTitle s = joinWords ((pySplit s).take 12) := by
        rw [hmk, if_pos hdot]
      refine ⟨by rw [hm2]; exact htne, ?_, fun h => absurd h hps,
        fun _ => ⟨fun _ => hm2, fun hf => by rw [hdot] at hf; exact Bool.noConfusion hf⟩⟩
      rw [hm2, hrt]
      exact List.length_take_le 12 (pySplit s)
    · have hdot' : endsWithDot (joinWords ((pySplit s).take 12)) = false :=
        Bool.eq_false_iff.mpr hdot

      have hm2 : mkTitle s = joinWords ((pySplit s).take 12) ++ "..." := by
        rw [hmk, if_neg (by rw [hdot']; intro hh; exact Bool.noConfusion hh)]
      obtain ⟨ws', hjoin, hlen, hgood'⟩ :=
        joinWords_append ((pySplit s).take 12) "..." htk (by decide) hgood
      have hrt' : pySplit (mkTitle s) = ws' := by
        rw [hm2, hjoin]
        exact pySplit_joinWords ws' hgood'
      have hlen' : (pySplit (mkTitle s)).length ≤ 12 := by
        rw [hrt', hlen]
        exact List.length_take_le 12 (pySplit s)
      have hne' : mkTitle s ≠ "" := by
        intro h
        rw [h] at hrt'
        have hws' : ws' = [] := by rw [← hrt']; rfl
        rw [hws'] at hlen
        simp only [List.length_nil] at hlen
        exact htk (List.length_eq_zero.mp hlen.symm)
      exact ⟨hne', hlen', fun h => absurd h hps,
        fun _ => ⟨fun ht => by rw [ht] at hdot'; exact Bool.noConfusion hdot', fun _ => hm2⟩⟩

/-! Lemmas about the per-chunk pass and the handler branches. -/

/-- When every call succeeds, the per-chunk pass succeeds: it makes exactly
one call per chunk, in order, and collects one partial summary per chunk. -/
theorem runChunks_ok (S : SummCall → Except PyErr String) (pmax pmin : Nat)
    (hok : ∀ c, ∃ s, S c = Except.ok s) (L : List String) :
    ∃ partials, runChunks S pmax pmin L =
        (Except.ok partials, L.map (fun c => perChunkCall c pmax pmin)) ∧
      List.Forall₂ (fun c p => S (perChunkCall c pmax pmin) = Except.ok p) L partials := by
  induction L with
  | nil => exact ⟨[], rfl, List.Forall₂.nil⟩
  | cons c cs ih =>
    obtain ⟨s, hs⟩ := hok (perChunkCall c pmax pmin)
    obtain ⟨ps, hrun, hf⟩ := ih
    refine ⟨s :: ps, ?_, List.Forall₂.cons hs hf⟩
    simp only [runChunks, hs, hrun, List.map_cons]

/-- If the per-chunk pass fails, a call in its trace raised the error. -/
theorem runChunks_error_mem (S : SummCall → Except PyErr String) (pmax pmin : Nat)
    (L : List String) (e : PyErr) (tr : List SummCall)
    (h : runChunks S pmax pmin L = (Except.error e, tr)) :
    ∃ c ∈ tr, S c = Except.error e := by
  induction L generalizing tr with
  | nil => simp [runChunks] at h
  | cons c cs ih =>
    simp only [runChunks] at h
    cases hS : S (perChunkCall c pmax pmin) with
    | error e' =>
      rw [hS] at h
      simp only [Prod.mk.injEq, Except.error.injEq] at h
      obtain ⟨he, htr⟩ := h
      subst he
      subst htr
      exact ⟨perChunkCall c pmax pmin, by simp, hS⟩
    | ok s =>
      rw [hS] at h
      cases hrun : runChunks S pmax pmin cs with
      | mk res tr' =>
        rw [hrun] at h
        cases res with
        | ok rest => simp at h
        | error e' =>
          simp only [Prod.mk.injEq, Except.error.injEq] at h
          obtain ⟨he, htr⟩ := h
          subst he
          subst htr
          obtain ⟨c', hc', hSc'⟩ := ih tr' hrun
          exact ⟨c', List.mem_cons_of_mem _ hc', hSc'⟩

/-- If the per-chunk pass succeeds, every call in its trace succeeded. -/
theorem runChunks_ok_calls (S : SummCall → Except PyErr String) (pmax pmin : Nat)
    (L : List String) (ps : List String) (tr : List SummCall)
    (h : runChunks S pmax pmin L = (Except.ok ps, tr)) :
    ∀ c ∈ tr, ∃ s, S c = Except.ok s := by
  induction L generalizing ps tr with
  | nil =>
    simp only [runChunks, Prod.mk.injEq] at h
    obtain ⟨_, htr⟩ := h
    subst htr
    intro c hc
    simp at hc
  | cons c cs ih =>
    simp only [runChunks] at h
    cases hS : S (perChunkCall c pmax pmin) with
    | error e' => rw [hS] at h; simp at h
    | ok s =>
      rw [hS] at h
      cases hrun : runChunks S pmax pmin cs with
      | mk res tr' =>
        rw [hrun] at h
        cases res with
        | error e' => simp at h
        | ok rest =>
          simp only [Prod.mk.injEq, Except.ok.injEq] at h
          obtain ⟨_, htr⟩ := h
          subst htr
          intro u hu
          rcases List.mem_cons.mp hu with hu | hu
          · exact hu ▸ ⟨s, hS⟩
          · exact ih rest tr' hrun u hu

/-- On nonempty text within the token limit the handler reduces to the
direct path: one summarizer call, whose outcome decides everything. -/
theorem summarize_eq_direct (tok : String → Nat) (S : SummCall → Except PyErr String)
    (req : Request) (t : String) (htext : req.text = some t) (hne : t ≠ "")
    (htok : ¬ MAX_TOKENS < tok t) :
    summarize tok S req =
      match S (directCall t (presetOf req).2 (presetOf req).1 (modeOf req)) with
      | Except.error e =>
        errorOutcome e [directCall t (presetOf req).2 (presetOf req).1 (modeOf req)]
      | Except.ok s =>
        successOutcome t s (tok t)
          [directCall t (presetOf req).2 (presetOf req).1 (modeOf req)] := by
  simp only [summarize, presetOf, modeOf, htext, Option.getD_some]
  rw [if_neg hne, if_neg htok]

/-- On nonempty text above the token limit the handler reduces to the
chunked path: the per-chunk pass followed by the recombination call. -/
theorem summarize_eq_chunked (tok : String → Nat) (S : SummCall → Except PyErr String)
    (req : Request) (t : String) (htext : req.text = some t) (hne : t ≠ "")
    (htok : MAX_TOKENS < tok t) :
    summarize tok S req =
      match runChunks S (presetOf req).2 (presetOf req).1 (chunk_text t 700 100) with
      | (Except.error e, tr) => errorOutcome e tr
      | (Except.ok partials, tr) =>
        match summarize_combined_chunks S partials (presetOf req).2 (presetOf req).1
            (modeOf req) with
        | (Except.error e, tr2) => errorOutcome e (tr ++ tr2)
        | (Except.ok s, tr2) => successOutcome t s (tok t) (tr ++ tr2) := by
  simp only [summarize, presetOf, modeOf, htext, Option.getD_some]
  rw [if_neg hne, if_pos htok]

/-- C1: on nonempty text, when the token count is at most MAX_TOKENS (1024)
the pipeline makes exactly one summarizer call, the direct one, and returns
its result; when the token count exceeds MAX_TOKENS it chunks the text with
max_words 700 and overlap 100, summarizes each chunk once in order with
do_sample false and the preset bounds, and makes exactly one further
recombination call, whose output is the returned summary (stated under a
capability that succeeds on every call, as the claim describes the
success path). -/
theorem C1_pipeline_paths (tok : String → Nat) (S : SummCall → Except PyErr String)
    (req : Request) (t : String) (htext : req.text = some t) (hne : t ≠ "")
    (hok : ∀ c, ∃ s, S c = Except.ok s) :
    (tok t ≤ MAX_TOKENS →
      (summarize tok S req).calls =
        [directCall t (presetOf req).2 (presetOf req).1 (modeOf req)] ∧
      ∃ s, S (directCall t (presetOf req).2 (presetOf req).1 (modeOf req)) = Except.ok s ∧
        (summarize tok S req).summary = some s ∧ (summarize tok S req).status = 200) ∧
    (MAX_TOKENS < tok t →
      ∃ partials s,
        List.Forall₂ (fun c p => S (perChunkCall c (presetOf req).2 (presetOf req).1) =
          Except.ok p) (chunk_text t 700 100) partials ∧
        (summarize tok S req).calls =
          (chunk_text t 700 100).map (fun c => perChunkCall c (presetOf req).2 (presetOf req).1)
            ++ [recombCall partials (presetOf req).2 (presetOf req).1 (modeOf req)] ∧
        S (recombCall partials (presetOf req).2 (presetOf req).1 (modeOf req)) =
          Except.ok s ∧
        (summarize tok S req).summary = some s ∧ (summarize tok S req).status = 200) ∧
    (∀ (c : String) (a b : Nat), (perChunkCall c a b).do_sample = false ∧
      (perChunkCall c a b).max_length = a ∧ (perChunkCall c a b).min_length = b) := by
  refine ⟨?_, ?_, fun c a b => ⟨rfl, rfl, rfl⟩⟩
  · intro htok
    obtain ⟨s, hs⟩ := hok (directCall t (presetOf req).2 (presetOf req).1 (modeOf req))
    rw [summarize_eq_direct tok S req t htext hne (Nat.not_lt.mpr htok), hs]
    exact ⟨rfl, s, rfl, rfl, rfl⟩
  · intro htok
    obtain ⟨partials, hrun, hfa⟩ :=
      runChunks_ok S (presetOf req).2 (presetOf req).1 hok (chunk_text t 700 100)
    obtain ⟨s, hs⟩ := hok (recombCall partials (presetOf req).2 (presetOf req).1 (modeOf req))
    rw [summarize_eq_chunked tok S req t htext hne htok, hrun]
    refine ⟨partials, s, hfa, ?_, hs, ?_, ?_⟩ <;>
      simp only [summarize_combined_chunks, hs, successOutcome]

/-- Nonempty effective text comes from a present, nonempty text field. -/
theorem text_some_of_ne (req : Request) (ht : req.text.getD "" ≠ "") :
    ∃ t, req.text = some t ∧ t ≠ "" := by
  cases hx : req.text with
  | none => rw [hx] at ht; exact absurd rfl ht
  | some t => rw [hx] at ht; exact ⟨t, rfl, ht⟩

/-- C5: whenever the handler answers 500, nothing was persisted and one of
the calls it made raised the error whose message the response carries — an
IndexError surfacing as the fixed index-error text and any other exception
as its own message; whenever anything was persisted the request succeeded
with status 200 and exactly the one success record for the produced
summary; and whenever any call the handler made raised an error the
response status is 500, so there is no partial-success path. -/
theorem C5_error_handling (tok : String → Nat) (S : SummCall → Except PyErr String)
    (req : Request) :
    ((summarize tok S req).status = 500 →
      (summarize tok S req).persisted = [] ∧
      ∃ c ∈ (summarize tok S req).calls, ∃ e, S c = Except.error e ∧
        (summarize tok S req).error = some (pyErrResponseMsg e)) ∧
    ((summarize tok S req).persisted ≠ [] →
      (summarize tok S req).status = 200 ∧
      ∃ s, (summarize tok S req).summary = some s ∧
        (summarize tok S req).persisted =
          [{ text := req.text.getD "", summary := s, title := mkTitle s,
             success := true, error := "" }]) ∧
    ((∃ c ∈ (summarize tok S req).calls, ∃ e, S c = Except.error e) →
      (summarize tok S req).status = 500) := by
  by_cases ht : req.text.getD "" = ""
  · have hsum : summarize tok S req =
        { status := 400, ok := some false, error := some "Input text is required.",
          title := none, summary := none, original_length := none,
          summary_length := none, token_count := none, persisted := [], calls := [] } := by
      simp [summarize, ht]
    rw [hsum]
    exact ⟨fun h => by simp at h, fun h => by simp at h, fun h => by simp at h⟩
  · obtain ⟨t, htext, hne⟩ := text_some_of_ne req ht
    have htg : req.text.getD "" = t := by rw [htext]; rfl
    by_cases hlt : MAX_TOKENS < tok t
    · rw [summarize_eq_chunked tok S req t htext hne hlt]
      cases hrc : runChunks S (presetOf req).2 (presetOf req).1 (chunk_text t 700 100) with
      | mk res tr =>
        cases res with
        | error e =>
          refine ⟨fun _ => ⟨rfl, ?_⟩, fun h => absurd rfl h, fun _ => rfl⟩
          obtain ⟨c, hc, hSc⟩ := runChunks_error_mem S _ _ _ e tr hrc
          exact ⟨c, hc, e, hSc, rfl⟩
        | ok partials =>
          simp only [summarize_combined_chunks]
          cases hS : S (recombCall partials (presetOf req).2 (presetOf req).1 (modeOf req)) with
          | error e =>
            refine ⟨fun _ => ⟨rfl, ?_⟩, fun h => absurd rfl h, fun _ => rfl⟩
            exact ⟨recombCall partials (presetOf req).2 (presetOf req).1 (modeOf req),
              by simp [errorOutcome], e, hS, rfl⟩
          | ok s =>
            refine ⟨fun h => by simp [successOutcome] at h,
              fun _ => ⟨rfl, s, rfl, by rw [htg]; exact rfl⟩, fun hex => ?_⟩
            exfalso
            obtain ⟨c, hc, e, hce⟩ := hex
            have hc' : c ∈ tr ++
                [recombCall partials (presetOf req).2 (presetOf req).1 (modeOf req)] := hc
            rcases List.mem_append.mp hc' with hmem | hmem
            · obtain ⟨s', hs'⟩ := runChunks_ok_calls S _ _ _ partials tr hrc c hmem
              rw [hs'] at hce
              exact Except.noConfusion hce
            · rw [List.mem_singleton] at hmem
              subst hmem
              rw [hS] at hce
              exact Except.noConfusion hce
    · rw [summarize_eq_direct tok S req t htext hne hlt]
      cases hS : S (directCall t (presetOf req).2 (presetOf req).1 (modeOf req)) with
      | error e =>
        refine ⟨fun _ => ⟨rfl, ?_⟩, fun h => absurd rfl h, fun _ => rfl⟩
        exact ⟨directCall t (presetOf req).2 (presetOf req).1 (modeOf req),
          by simp [errorOutcome], e, hS, rfl⟩
      | ok s =>
        refine ⟨fun h => by simp [successOutcome] at h,
          fun _ => ⟨rfl, s, rfl, by rw [htg]; exact rfl⟩, fun hex => ?_⟩
        exfalso
        obtain ⟨c, hc, e, hce⟩ := hex
        have hc' : c ∈ [directCall t (presetOf req).2 (presetOf req).1 (modeOf req)] := hc
        rw [List.mem_singleton] at hc'
        subst hc'
        rw [hS] at hce
        exact Except.noConfusion hce

/-- C6: a missing or empty text field yields the 400 response with ok false
and the fixed validation message, persists nothing, makes no summarizer
call, and the outcome is independent of the tokenizer and summarization
capabilities, which is the sense in which neither is invoked. -/
theorem C6_empty_text (tok : String → Nat) (S : SummCall → Except PyErr String)
    (req : Request) (h : req.text = none ∨ req.text = some "") :
    (summarize tok S req).status = 400 ∧ (summarize tok S req).ok = some false ∧
    (summarize tok S req).error = some "Input text is required." ∧
    (summarize tok S req).persisted = [] ∧ (summarize tok S req).calls = [] ∧
    ∀ (tok₂ : String → Nat) (S₂ : SummCall → Except PyErr String),
      summarize tok₂ S₂ req = summarize tok S req := by
  have ht : req.text.getD "" = "" := by rcases h with h | h <;> rw [h] <;> rfl
  have hs : ∀ (tok₂ : String → Nat) (S₂ : SummCall → Except PyErr String),
      summarize tok₂ S₂ req =
      { status := 400, ok := some false, error := some "Input text is required.",
        title := none, summary := none, original_length := none,
        summary_length := none, token_count := none, persisted := [], calls := [] } := by
    intro tok₂ S₂
    simp [summarize, ht]
  rw [hs tok S]
  exact ⟨rfl, rfl, rfl, rfl, rfl, fun tok₂ S₂ => hs tok₂ S₂⟩

/-- C7: the preset table maps short to (15, 30), medium to (50, 100) and
long to (100, 180) as (preset_min, preset_max); every other string falls
back to the medium bounds, and a request without a length field gets the
medium bounds through the dict get default. -/
theorem C7_length_presets :
    lengthPreset "short" = (15, 30) ∧ lengthPreset "medium" = (50, 100) ∧
    lengthPreset "long" = (100, 180) ∧
    (∀ s : String, s ≠ "short" → s ≠ "medium" → s ≠ "long" →
      lengthPreset s = (50, 100)) ∧
    (∀ text mode : Option String,
      presetOf { text := text, length := none, mode := mode } = (50, 100)) := by
  refine ⟨by decide, by decide, by decide, ?_, fun text mode => rfl⟩
  intro s h1 h2 h3
  simp only [lengthPreset, if_neg h1, if_neg h2, if_neg h3]

/-- C3: the direct call and the recombination call both use beam count 5
and temperature 1.2, and both sample exactly when mode is the string
creative; they differ only in nucleus-sampling breadth, the direct call
using top-k 50 with top-p 0.9 and the recombination call top-k 100 with
top-p 0.95. -/
theorem C3_sampling_asymmetry (t : String) (pmax pmin : Nat) (mode : String)
    (chunks : List String) :
    (directCall t pmax pmin mode).num_beams = some 5 ∧
    (recombCall chunks pmax pmin mode).num_beams = some 5 ∧
    (directCall t pmax pmin mode).temperature = some 1.2 ∧
    (recombCall chunks pmax pmin mode).temperature = some 1.2 ∧
    ((directCall t pmax pmin mode).do_sample = true ↔ mode = "creative") ∧
    (directCall t pmax pmin mode).do_sample = (recombCall chunks pmax pmin mode).do_sample ∧
    (directCall t pmax pmin mode).top_k = some 50 ∧
    (directCall t pmax pmin mode).top_p = some 0.9 ∧
    (recombCall chunks pmax pmin mode).top_k = some 100 ∧
    (recombCall chunks pmax pmin mode).top_p = some 0.95 := by
  refine ⟨rfl, rfl, rfl, rfl, ?_, rfl, rfl, rfl, rfl, rfl⟩
  show (mode == "creative") = true ↔ mode = "creative"
  exact beq_iff_eq

/-- C9: under mode reliable on the direct path, the outcome is the same for
any two summarization capabilities that agree on non-sampling calls; this
is determinism of the pipeline given a deterministic underlying capability,
since with do_sample false the direct call is fully determined by the text,
the bounds and the mode. -/
theorem C9_reliable_deterministic (tok : String → Nat)
    (S₁ S₂ : SummCall → Except PyErr String) (req : Request)
    (hmode : modeOf req = "reliable")
    (htok : tok (req.text.getD "") ≤ MAX_TOKENS)
    (hagree : ∀ c, c.do_sample = false → S₁ c = S₂ c) :
    summarize tok S₁ req = summarize tok S₂ req := by
  by_cases ht : req.text.getD "" = ""
  · simp [summarize, ht]
  · obtain ⟨t, htext, hne⟩ := text_some_of_ne req ht
    have htg : req.text.getD "" = t := by rw [htext]; rfl
    rw [htg] at htok
    have htok' : ¬ MAX_TOKENS < tok t := Nat.not_lt.mpr htok
    rw [summarize_eq_direct tok S₁ req t htext hne htok',
      summarize_eq_direct tok S₂ req t htext hne htok']
    have hcall : S₁ (directCall t (presetOf req).2 (presetOf req).1 (modeOf req)) =
        S₂ (directCall t (presetOf req).2 (presetOf req).1 (modeOf req)) := by
      refine hagree _ ?_
      show (modeOf req == "creative") = false
      rw [hmode]
      decide
    rw [hcall]

/-- Requests that agree on text and length and whose modes agree on being
the string creative produce identical outcomes: the handler reads the mode
only through the comparison with the string creative. -/
theorem summarize_mode_congr (tok : String → Nat) (S : SummCall → Except PyErr String)
    (req₁ req₂ : Request) (ht : req₁.text = req₂.text) (hl : req₁.length = req₂.length)
    (hm : (req₁.mode.getD "reliable" == "creative") =
      (req₂.mode.getD "reliable" == "creative")) :
    summarize tok S req₁ = summarize tok S req₂ := by
  have hd : ∀ (a : String) (b c : Nat),
      directCall a b c (req₁.mode.getD "reliable") =
        directCall a b c (req₂.mode.getD "reliable") := by
    intro a b c
    simp only [directCall, hm]
  have hr : ∀ (cs : List String) (b c : Nat),
      recombCall cs b c (req₁.mode.getD "reliable") =
        recombCall cs b c (req₂.mode.getD "reliable") := by
    intro cs b c
    simp only [recombCall, hm]
  simp only [summarize, summarize_combined_chunks, ht, hl, hd, hr]

/-- C10: any mode other than the exact string creative, including a missing
mode field, behaves exactly like mode reliable: the whole outcome equals
the outcome for the same request with mode reliable, do_sample is false on
both the direct call and the recombination call, and no validation error is
raised, the status never being 400 on nonempty text. -/
theorem C10_unknown_mode (tok : String → Nat) (S : SummCall → Except PyErr String)
    (req : Request) (m : String) (hm : req.mode = some m) (hne : m ≠ "creative") :
    summarize tok S req =
      summarize tok S (Request.mk req.text req.length (some "reliable")) ∧
    (∀ (a : String) (b c : Nat), (directCall a b c m).do_sample = false) ∧
    (∀ (cs : List String) (b c : Nat), (recombCall cs b c m).do_sample = false) ∧
    (∀ (tok₂ : String → Nat) (S₂ : SummCall → Except PyErr String) (req₂ : Request),
      req₂.mode = none →
      summarize tok₂ S₂ req₂ =
        summarize tok₂ S₂ (Request.mk req₂.text req₂.length (some "reliable"))) ∧
    (∀ t : String, req.text = some t → t ≠ "" → (summarize tok S req).status ≠ 400) := by
  have hbeq : (m == "creative") = false := beq_eq_false_iff_ne.mpr hne
  refine ⟨?_, fun a b c => hbeq, fun cs b c => hbeq, ?_, ?_⟩
  · refine summarize_mode_congr tok S req _ rfl rfl ?_
    rw [hm]
    show (m == "creative") = ("reliable" == "creative")
    rw [hbeq]
    decide
  · intro tok₂ S₂ req₂ hm2
    refine summarize_mode_congr tok₂ S₂ req₂ _ rfl rfl ?_
    rw [hm2]
    rfl
  · intro t htext htne h400
    by_cases hlt : MAX_TOKENS < tok t
    · rw [summarize_eq_chunked tok S req t htext htne hlt] at h400
      cases hrc : runChunks S (presetOf req).2 (presetOf req).1 (chunk_text t 700 100) with
      | mk res tr =>
        rw [hrc] at h400
        cases res with
        | error e => simp [errorOutcome] at h400
        | ok partials =>
          simp only [summarize_combined_chunks] at h400
          cases hS : S (recombCall partials (presetOf req).2 (presetOf req).1
              (modeOf req)) with
          | error e => rw [hS] at h400; simp [errorOutcome] at h400
          | ok s => rw [hS] at h400; simp [successOutcome] at h400
    · rw [summarize_eq_direct tok S req t htext htne hlt] at h400
      cases hS : S (directCall t (presetOf req).2 (presetOf req).1 (modeOf req)) with
      | error e => rw [hS] at h400; simp [errorOutcome] at h400
      | ok s => rw [hS] at h400; simp [successOutcome] at h400

/-! Concrete capability stubs used to witness the theorems above. -/

/-- A tokenizer stub that counts every text as zero tokens. -/
def stubTok : String → Nat := fun _ => 0

/-- A summarization capability stub that always succeeds. -/
def stubS : SummCall → Except PyErr String := fun _ => Except.ok "Summary."

/-- A summarization capability stub that always raises a generic error. -/
def stubSFail : SummCall → Except PyErr String := fun _ => Except.error (PyErr.other "boom")

/-- Witness for C1 at a concrete request on the direct path. -/
theorem C1_pipeline_paths_witness :
    stubTok "hello" ≤ MAX_TOKENS ∧
    ((summarize stubTok stubS (Request.mk (some "hello") none none)).calls =
      [directCall "hello" (presetOf (Request.mk (some "hello") none none)).2
        (presetOf (Request.mk (some "hello") none none)).1
        (modeOf (Request.mk (some "hello") none none))] ∧
     ∃ s, stubS (directCall "hello" (presetOf (Request.mk (some "hello") none none)).2
        (presetOf (Request.mk (some "hello") none none)).1
        (modeOf (Request.mk (some "hello") none none))) = Except.ok s ∧
      (summarize stubTok stubS (Request.mk (some "hello") none none)).summary = some s ∧
      (summarize stubTok stubS (Request.mk (some "hello") none none)).status = 200) :=
  ⟨by decide, (C1_pipeline_paths stubTok stubS (Request.mk (some "hello") none none) "hello"
      rfl (by decide) (fun c => ⟨"Summary.", rfl⟩)).1 (by decide)⟩

/-- Witness for C2 (amended) at a concrete text and parameters. -/
theorem C2_amended_chunker_witness :
    (∀ (j : Nat) (x : String), (pySplit "a b c")[j]? = some x →
      ∃ c ∈ chunk_text "a b c" 2 1, x ∈ pySplit c) ∧
    (∀ c ∈ chunk_text "a b c" 2 1, (pySplit c).length ≤ 2) ∧
    (∀ k c₁ c₂, (chunk_text "a b c" 2 1)[k]? = some c₁ →
      (chunk_text "a b c" 2 1)[k + 1]? = some c₂ →
      (pySplit c₁).length = 2 →
      (pySplit c₁).drop (2 - 1) = (pySplit c₂).take 1 ∧ 1 ≤ (pySplit c₂).length) :=
  C2_amended_chunker "a b c" 2 1 (by decide)

/-- Witness for C3 at a concrete mode. -/
theorem C3_sampling_asymmetry_witness :
    (directCall "t" 100 50 "creative").do_sample = true ↔ "creative" = "creative" :=
  (C3_sampling_asymmetry "t" 100 50 "creative" ["x"]).2.2.2.2.1

/-- Witness for C4 (amended) at a concrete summary. -/
theorem C4_amended_title_witness :
    mkTitle "The quick brown fox." ≠ "" ∧
    (pySplit (mkTitle "The quick brown fox.")).length ≤ 12 :=
  ⟨(C4_amended_title "The quick brown fox.").1, (C4_amended_title "The quick brown fox.").2.1⟩

/-- Witness for C5 at a concrete failing capability. -/
theorem C5_error_handling_witness :
    (summarize stubTok stubSFail (Request.mk (some "hi") none none)).status = 500 ∧
    (summarize stubTok stubSFail (Request.mk (some "hi") none none)).persisted = [] :=
  ⟨by decide,
   ((C5_error_handling stubTok stubSFail (Request.mk (some "hi") none none)).1 (by decide)).1⟩

/-- Witness for C6 at a concrete empty-text request. -/
theorem C6_empty_text_witness :
    (summarize stubTok stubS (Request.mk (some "") none none)).status = 400 ∧
    (summarize stubTok stubS (Request.mk (some "") none none)).calls = [] :=
  ⟨(C6_empty_text stubTok stubS (Request.mk (some "") none none) (Or.inr rfl)).1,
   (C6_empty_text stubTok stubS (Request.mk (some "") none none) (Or.inr rfl)).2.2.2.2.1⟩

/-- Witness for C7 at a concrete unknown length value. -/
theorem C7_length_presets_witness : lengthPreset "banana" = (50, 100) :=
  C7_length_presets.2.2.2.1 "banana" (by decide) (by decide) (by decide)

/-- Witness for C8 (amended) at a concrete text and the default
parameters. -/
theorem C8_amended_single_chunk_witness :
    chunk_text "a b c" 700 100 = [joinWords (pySplit "a b c")] :=
  C8_amended_single_chunk "a b c" 700 100 (by decide) (by decide)

/-- Witness for C9 at a concrete reliable-mode request. -/
theorem C9_reliable_deterministic_witness :
    summarize stubTok stubS (Request.mk (some "hi") none (some "reliable")) =
      summarize stubTok stubS (Request.mk (some "hi") none (some "reliable")) :=
  C9_reliable_deterministic stubTok stubS stubS
    (Request.mk (some "hi") none (some "reliable")) rfl (by decide) (fun c h => rfl)

/-- Witness for C10 at a concrete misspelled mode. -/
theorem C10_unknown_mode_witness :
    summarize stubTok stubS (Request.mk (some "hi") none (some "creatif")) =
      summarize stubTok stubS (Request.mk (some "hi") none (some "reliable")) ∧
    (directCall "x" 100 50 "creatif").do_sample = false :=
  ⟨(C10_unknown_mode stubTok stubS (Request.mk (some "hi") none (some "creatif")) "creatif"
      rfl (by decide)).1,
   (C10_unknown_mode stubTok stubS (Request.mk (some "hi") none (some "creatif")) "creatif"
      rfl (by decide)).2.1 "x" 100 50⟩

example : pySplit "a  b c" = ["a", "b", "c"] := by decide
example : pySplit "" = [] := by decide
example : pySplit "  " = [] := by decide
example : chunk_text "a b c d e" 4 3 = ["a b c d", "b c d e", "c d e", "d e", "e"] := by decide
example : chunk_text "a  b c" 4 2 = ["a b c", "c"] := by decide
example : joinWords ["a", "b"] = "a b" := by decide
